import Mathlib

/-!
# Verification of the Data Sweeper pipeline (`src/main.py`)

A shallow embedding of the data model and operations of the Data Sweeper
application: tables (pandas `DataFrame`s) are lists of rows of cells, a cell
being a numeric value (modelled as a rational), a string, or the missing
marker (`NaN`).  The cleaning operations (`drop_duplicates`, mean-fill of
numeric nulls, `dropna`), CSV serialization/parsing (`to_csv(index=False)` /
`read_csv`), column selection (`df[selected_columns]`), the per-file
processing loop with its generated output filenames, and the bulk-download
dictionary/zip are embedded as executable Lean functions and verified below.
-/

/-- A cell of a table: a numeric value (pandas numeric dtypes, modelled
exactly as a rational), a string, or the missing marker (`NaN`/`None`). -/
inductive Cell where
  | num (q : ℚ)
  | str (s : String)
  | missing
deriving DecidableEq

/-- A row is the list of its cells, one per column, aligned by position. -/
abbrev Row := List Cell

/-- A table (pandas `DataFrame`): named columns over a list of rows; the
cell of column `j` in a row sits at position `j`. -/
structure Table where
  header : List String
  rows : List Row
deriving DecidableEq

/-- Well-formedness of a table: every row has exactly one cell per column. -/
def Table.aligned (T : Table) : Bool :=
  T.rows.all (fun r => r.length = T.header.length)

/-- The number of columns of a table. -/
def Table.width (T : Table) : Nat := T.header.length

/-- Does a row contain a missing cell (`df.isna().any()` along the row)? -/
def rowHasMissing (r : Row) : Bool := r.any (· = Cell.missing)

/-! ## removeDuplicates (`df.drop_duplicates()`, main.py line 110)

Drops rows that are exact duplicates of an earlier row, keeping the first
occurrence and preserving the order of the surviving rows. -/

/-- First-occurrence deduplication of a list of rows: keep the head and
deduplicate the tail with all copies of the head removed.  This is the
row-level content of `df.drop_duplicates()`. -/
def dedupRows : List Row → List Row
  | [] => []
  | r :: rs => r :: dedupRows (rs.filter (fun x => x ≠ r))
termination_by l => l.length
decreasing_by
  exact Nat.lt_succ_of_le (List.length_filter_le _ _)

/-- `df.drop_duplicates()`: drop duplicate rows, keep first occurrences. -/
def removeDuplicates (T : Table) : Table :=
  ⟨T.header, dedupRows T.rows⟩

theorem dedupRows_nil : dedupRows [] = [] := by
  simp [dedupRows]

theorem dedupRows_cons (r : Row) (rs : List Row) :
    dedupRows (r :: rs) = r :: dedupRows (rs.filter (fun x => x ≠ r)) := by
  simp [dedupRows]

/-- Deduplication commutes with filtering. -/
theorem filter_dedupRows (p : Row → Bool) :
    ∀ l : List Row, (dedupRows l).filter p = dedupRows (l.filter p) := by
  intro l
  induction l using dedupRows.induct with
  | case1 => simp [dedupRows]
  | case2 r rs ih =>
    rw [dedupRows_cons]
    by_cases hp : p r = true
    · rw [List.filter_cons_of_pos hp, ih, List.filter_comm,
        List.filter_cons_of_pos hp, dedupRows_cons, List.filter_comm]
    · have hp' : p r = false := by
        cases h : p r
        · rfl
        · exact absurd h hp
      rw [List.filter_cons_of_neg (by simp [hp']), ih, List.filter_comm]
      rw [List.filter_cons_of_neg (by simp [hp'])]
      congr 1
      apply List.filter_eq_self.mpr
      intro x hx
      have hxp := List.of_mem_filter hx
      have : x ≠ r := by
        intro h
        subst h
        rw [hp'] at hxp
        exact Bool.false_ne_true hxp
      simpa using this

/-- First-occurrence deduplication is idempotent. -/
theorem dedupRows_idem : ∀ l : List Row, dedupRows (dedupRows l) = dedupRows l := by
  intro l
  induction l using dedupRows.induct with
  | case1 => simp [dedupRows]
  | case2 r rs ih =>
    rw [dedupRows_cons, dedupRows_cons, filter_dedupRows]
    have hff : (rs.filter (fun x => x ≠ r)).filter (fun x => x ≠ r)
        = rs.filter (fun x => x ≠ r) := by
      rw [List.filter_filter]
      apply List.filter_congr
      intro x _
      simp
    rw [hff, ih]

/-- C2: `removeDuplicates` is idempotent: dropping exact-duplicate rows
(keeping first occurrences, order preserved) a second time changes
nothing. -/
theorem removeDuplicates_idempotent (T : Table) :
    removeDuplicates (removeDuplicates T) = removeDuplicates T := by
  unfold removeDuplicates
  simp [dedupRows_idem]

/-! ## dropNullRows (`df.dropna()`, main.py line 206)

Drops every row containing at least one missing cell. -/

/-- `df.dropna()`: keep only the rows with no missing cell. -/
def dropNullRows (T : Table) : Table :=
  ⟨T.header, T.rows.filter (fun r => !rowHasMissing r)⟩

/-- C3: after `dropNullRows` no surviving row has a missing cell, and the
surviving rows form a subsequence of the original rows (every survivor
appears in the input, relative order preserved). -/
theorem dropNullRows_spec (T : Table) :
    (∀ r ∈ (dropNullRows T).rows, rowHasMissing r = false) ∧
      (dropNullRows T).rows.Sublist T.rows := by
  constructor
  · intro r hr
    have := List.of_mem_filter hr
    simpa using this
  · exact List.filter_sublist T.rows

/-! ## fillNumericNulls (main.py lines 114-120)

`df_cleaned[numeric_cols] = df_cleaned[numeric_cols].fillna(df_cleaned[numeric_cols].mean())`:
for each column of numeric dtype (all cells numeric-or-missing), replace each
missing cell with the column's mean over its non-missing values, computed on
the table before any replacement.  A column whose mean is undefined (no
non-missing value, pandas mean `NaN`) is left untouched, since
`fillna(NaN)` does not fill. -/

/-- The numeric value of a cell, if it has one. -/
def cellNum? : Cell → Option ℚ
  | Cell.num q => some q
  | _ => none

/-- Is a cell numeric-or-missing (what a numeric pandas dtype admits)? -/
def isNumCell : Cell → Bool
  | Cell.str _ => false
  | _ => true

/-- Column `j` of a table, as the list of its cells down the rows. -/
def getCol (T : Table) (j : Nat) : List Cell :=
  T.rows.map (fun r => r.getD j Cell.missing)

/-- The non-missing numeric values of column `j` (what `mean()` averages). -/
def colNonMissing (T : Table) (j : Nat) : List ℚ :=
  (getCol T j).filterMap cellNum?

/-- Is column `j` of numeric dtype (`select_dtypes(include=["number"])`)? -/
def isNumericCol (T : Table) (j : Nat) : Bool :=
  (getCol T j).all isNumCell

/-- `df[col].mean()`: arithmetic mean of the non-missing values (pandas
skips `NaN` by default). -/
def colMean (T : Table) (j : Nat) : ℚ :=
  (colNonMissing T j).sum / (colNonMissing T j).length

/-- The fill value `fillna` uses on column `j`: the pre-fill mean, provided
the column is numeric and its mean is defined (`fillna(NaN)` fills nothing,
and non-numeric columns are not selected). -/
def fillSpec (T : Table) (j : Nat) : Option ℚ :=
  if isNumericCol T j && !(colNonMissing T j).isEmpty then some (colMean T j)
  else none

/-- Apply a fill value to one cell: only missing cells are replaced. -/
def fillCell : Option ℚ → Cell → Cell
  | some m, Cell.missing => Cell.num m
  | _, c => c

/-- The per-column fill values of a table, in column order. -/
def fillSpecs (T : Table) : List (Option ℚ) :=
  (List.range T.width).map (fillSpec T)

/-- Mean-fill of the missing cells of the numeric columns (lines 114-117). -/
def fillNumericNulls (T : Table) : Table :=
  ⟨T.header, T.rows.map (fun r => List.zipWith fillCell (fillSpecs T) r)⟩

theorem length_fillSpecs (T : Table) : (fillSpecs T).length = T.width := by
  simp [fillSpecs]

theorem fillSpecs_getD (T : Table) (j : Nat) (hj : j < T.width) :
    (fillSpecs T).getD j none = fillSpec T j := by
  simp [fillSpecs, List.getD_eq_getElem?_getD, List.getElem?_range hj]

theorem fillCell_none (c : Cell) : fillCell none c = c := by
  cases c <;> rfl

theorem fillCell_ne_missing (m : ℚ) (c : Cell) :
    fillCell (some m) c ≠ Cell.missing := by
  cases c <;> simp [fillCell]

theorem getD_zipWith_fillCell (specs : List (Option ℚ)) (r : Row) (j : Nat)
    (hjs : j < specs.length) (hjr : j < r.length) :
    (List.zipWith fillCell specs r).getD j Cell.missing
      = fillCell (specs.getD j none) (r.getD j Cell.missing) := by
  simp [List.getD_eq_getElem?_getD, List.getElem?_zipWith,
    List.getElem?_eq_getElem hjs, List.getElem?_eq_getElem hjr]

/-- Filling acts columnwise: column `j` after the fill is column `j` before
the fill, mapped through its fill value. -/
theorem getCol_fillNumericNulls (T : Table) (j : Nat)
    (hal : T.aligned = true) (hj : j < T.width) :
    getCol (fillNumericNulls T) j = (getCol T j).map (fillCell (fillSpec T j)) := by
  unfold getCol fillNumericNulls
  simp only [List.map_map]
  apply List.map_congr_left
  intro r hr
  simp only [Table.aligned, List.all_eq_true, decide_eq_true_eq] at hal
  have hlen : r.length = T.width := hal r hr
  show (List.zipWith fillCell (fillSpecs T) r).getD j Cell.missing
      = fillCell (fillSpec T j) (r.getD j Cell.missing)
  rw [getD_zipWith_fillCell _ _ _ (by rw [length_fillSpecs]; exact hj)
    (by rw [hlen]; exact hj), fillSpecs_getD T j hj]

/-- On an all-numeric column, filling with `m` turns the cell list into the
total list of values, defaulting missing cells to `m`. -/
theorem filterMap_map_fillCell (m : ℚ) :
    ∀ L : List Cell, L.all isNumCell = true →
      (L.map (fillCell (some m))).filterMap cellNum?
        = L.map (fun c => (cellNum? c).getD m) := by
  intro L hL
  induction L with
  | nil => rfl
  | cons c cs ih =>
    simp only [List.all_cons, Bool.and_eq_true] at hL
    cases c with
    | num q => simp [fillCell, cellNum?, ih hL.2]
    | str s => simp [isNumCell] at hL
    | missing => simp [fillCell, cellNum?, ih hL.2]

/-- Sum of the filled column: original sum plus one fill value per missing
cell. -/
theorem sum_map_fillDefault (m : ℚ) :
    ∀ L : List Cell, L.all isNumCell = true →
      (L.map (fun c => (cellNum? c).getD m)).sum
        = (L.filterMap cellNum?).sum + (L.countP (· = Cell.missing) : ℚ) * m := by
  intro L hL
  induction L with
  | nil => simp
  | cons c cs ih =>
    simp only [List.all_cons, Bool.and_eq_true] at hL
    have ih' := ih hL.2
    cases c with
    | num q =>
      simp only [List.map_cons, List.sum_cons, ih']
      simp [cellNum?, List.countP_cons]
      ring
    | str s => simp [isNumCell] at hL
    | missing =>
      simp only [List.map_cons, List.sum_cons, ih']
      simp [cellNum?, List.countP_cons]
      ring

/-- On an all-numeric column, the cell count splits into non-missing values
plus missing cells. -/
theorem length_eq_values_add_missing :
    ∀ L : List Cell, L.all isNumCell = true →
      L.length = (L.filterMap cellNum?).length + L.countP (· = Cell.missing) := by
  intro L hL
  induction L with
  | nil => simp
  | cons c cs ih =>
    simp only [List.all_cons, Bool.and_eq_true] at hL
    have ih' := ih hL.2
    cases c with
    | num q =>
      simp only [List.length_cons, List.filterMap_cons, cellNum?, List.countP_cons]
      simp
      omega
    | str s => simp [isNumCell] at hL
    | missing =>
      simp only [List.length_cons, List.filterMap_cons, cellNum?, List.countP_cons]
      simp
      omega

/-- Filling the missing entries of a sample with the sample mean of the
present entries preserves the mean. -/
theorem mean_fill_arith (S : ℚ) (k c : ℕ) (hk : k ≠ 0) :
    (S + (c : ℚ) * (S / (k : ℚ))) / ((k + c : ℕ) : ℚ) = S / (k : ℚ) := by
  have hkQ : (k : ℚ) ≠ 0 := Nat.cast_ne_zero.mpr hk
  have hkcQ : ((k + c : ℕ) : ℚ) ≠ 0 := Nat.cast_ne_zero.mpr (by omega)
  push_cast at hkcQ ⊢
  field_simp
  ring

/-- C1 (amended): for a numeric column that contains a missing value and at
least one non-missing value, `fillNumericNulls` removes every missing value
from the column and preserves the column's mean (the fill value being the
pre-fill mean, not computed iteratively). -/
theorem fillNumericNulls_spec (T : Table) (j : Nat)
    (hal : T.aligned = true) (hj : j < T.width)
    (hnum : isNumericCol T j = true)
    (_hmiss : (getCol T j).any (· = Cell.missing) = true)
    (hnonmiss : colNonMissing T j ≠ []) :
    (∀ c ∈ getCol (fillNumericNulls T) j, c ≠ Cell.missing) ∧
      colMean (fillNumericNulls T) j = colMean T j := by
  have hspec : fillSpec T j = some (colMean T j) := by
    unfold fillSpec
    rw [hnum]
    simp [List.isEmpty_iff, hnonmiss]
  have hcol := getCol_fillNumericNulls T j hal hj
  constructor
  · intro c hc
    rw [hcol, hspec] at hc
    obtain ⟨c0, _, rfl⟩ := List.mem_map.mp hc
    exact fillCell_ne_missing _ _
  · have hfm : colNonMissing (fillNumericNulls T) j
        = (getCol T j).map (fun c => (cellNum? c).getD (colMean T j)) := by
      unfold colNonMissing
      rw [hcol, hspec]
      exact filterMap_map_fillCell _ _ hnum
    have hk : (colNonMissing T j).length ≠ 0 := by
      simpa [List.length_eq_zero] using hnonmiss
    have hsum := sum_map_fillDefault (colMean T j) (getCol T j) hnum
    have hlen := length_eq_values_add_missing (getCol T j) hnum
    have hmean : colMean T j = (List.filterMap cellNum? (getCol T j)).sum /
        ((List.filterMap cellNum? (getCol T j)).length : ℚ) := rfl
    unfold colMean
    rw [hfm, List.length_map, hsum, hlen]
    unfold colNonMissing at hk
    rw [hmean]
    unfold colNonMissing
    exact mean_fill_arith _ _ _ hk

/-- The table refuting claim C1 as stated: its only column is numeric and
consists of a single missing cell. -/
def cexFillTable : Table := ⟨["a"], [[Cell.missing]]⟩

/-- C1 counterexample: `cexFillTable` has a numeric column containing a
missing value, yet after `fillNumericNulls` the column still contains a
missing value (pandas' mean of an all-missing column is `NaN`, and
`fillna(NaN)` fills nothing), contradicting the claim as stated. -/
theorem fillNumericNulls_cex :
    isNumericCol cexFillTable 0 = true ∧
      (getCol cexFillTable 0).any (· = Cell.missing) = true ∧
      ¬ (∀ c ∈ getCol (fillNumericNulls cexFillTable) 0, c ≠ Cell.missing) := by
  refine ⟨by decide, by decide, ?_⟩
  intro h
  exact h Cell.missing (by decide) rfl

/-- A concrete numeric column `[1, missing, 3]` for the C1 witness. -/
def witFillTable : Table := ⟨["a"], [[Cell.num 1], [Cell.missing], [Cell.num 3]]⟩

/-- Witness for C1 (amended) on `witFillTable`. -/
theorem fillNumericNulls_spec_witness :
    (∀ c ∈ getCol (fillNumericNulls witFillTable) 0, c ≠ Cell.missing) ∧
      colMean (fillNumericNulls witFillTable) 0 = colMean witFillTable 0 :=
  fillNumericNulls_spec witFillTable 0 (by decide) (by decide) (by decide) (by decide)
    (by decide)

/-- C9: a column whose cells are all missing (numeric dtype, mean undefined)
is left entirely unfilled by `fillNumericNulls`: the operation is a no-op on
that column. -/
theorem fillNumericNulls_allMissing_noop (T : Table) (j : Nat)
    (hal : T.aligned = true) (hj : j < T.width)
    (hall : (getCol T j).all (· = Cell.missing) = true) :
    getCol (fillNumericNulls T) j = getCol T j := by
  have hempty : colNonMissing T j = [] := by
    unfold colNonMissing
    rw [List.filterMap_eq_nil_iff]
    intro a ha
    have := List.all_eq_true.mp hall a ha
    simp only [decide_eq_true_eq] at this
    rw [this]
    rfl
  have hnone : fillSpec T j = none := by
    unfold fillSpec
    rw [hempty]
    simp
  rw [getCol_fillNumericNulls T j hal hj, hnone]
  have h : ∀ c ∈ getCol T j, fillCell none c = id c := fun c _ => fillCell_none c
  rw [List.map_congr_left h, List.map_id]

/-- A table whose second column is entirely missing, for the C9 witness. -/
def witAllMissing : Table :=
  ⟨["x", "y"], [[Cell.num 1, Cell.missing], [Cell.num 2, Cell.missing]]⟩

/-- Witness for C9 on `witAllMissing`, column 1. -/
theorem fillNumericNulls_allMissing_noop_witness :
    getCol (fillNumericNulls witAllMissing) 1 = getCol witAllMissing 1 :=
  fillNumericNulls_allMissing_noop witAllMissing 1 (by decide) (by decide) (by decide)

/-! ## Column Selection (main.py lines 211-219)

`selected_columns` comes from a multiselect defaulting to all columns; the
code runs `df = df[selected_columns]` only when the selection is non-empty
(`if selected_columns:`), so the empty selection signal keeps the table
unchanged. -/

/-- Column selection: an empty `names` list (the falsy default signal)
leaves the table unchanged; otherwise `df[names]` projects onto the chosen
columns in the caller-provided order. -/
def selectColumns (T : Table) (names : List String) : Table :=
  if names = [] then T
  else ⟨names,
    T.rows.map (fun r => names.map (fun n => r.getD (T.header.indexOf n) Cell.missing))⟩

/-- C5: with an empty selection the table is unchanged (all columns,
original order); with a non-empty selection the resulting header is exactly
the chosen names in the chosen order, and each chosen column carries the
same cells as the corresponding original column. -/
theorem selectColumns_spec (T : Table) :
    selectColumns T [] = T ∧
      ∀ names : List String, names ≠ [] →
        (selectColumns T names).header = names ∧
        ∀ n ∈ names, n ∈ T.header →
          getCol (selectColumns T names) (names.indexOf n)
            = getCol T (T.header.indexOf n) := by
  refine ⟨by simp [selectColumns], ?_⟩
  intro names hne
  constructor
  · simp [selectColumns, hne]
  · intro n hn _
    unfold selectColumns
    rw [if_neg hne]
    unfold getCol
    simp only [List.map_map]
    apply List.map_congr_left
    intro r _
    show (names.map (fun x => r.getD (T.header.indexOf x) Cell.missing)).getD
        (names.indexOf n) Cell.missing = r.getD (T.header.indexOf n) Cell.missing
    have hlt : names.indexOf n < names.length := List.indexOf_lt_length.mpr hn
    rw [List.getD_eq_getElem?_getD, List.getElem?_map, List.getElem?_eq_getElem hlt]
    rw [List.getElem_indexOf hlt]
    rfl

/-- The `["a","b","c"]` table of the C5 scenario. -/
def witSelTable : Table :=
  ⟨["a", "b", "c"], [[Cell.num 1, Cell.num 2, Cell.num 3]]⟩

/-- Witness for C5: selecting `["b","a"]` from columns `["a","b","c"]`
yields header `["b","a"]`, and column `"b"` keeps its cells. -/
theorem selectColumns_spec_witness :
    (selectColumns witSelTable ["b", "a"]).header = ["b", "a"] ∧
      getCol (selectColumns witSelTable ["b", "a"]) (["b", "a"].indexOf "b")
        = getCol witSelTable (witSelTable.header.indexOf "b") :=
  ⟨((selectColumns_spec witSelTable).2 ["b", "a"] (by decide)).1,
    ((selectColumns_spec witSelTable).2 ["b", "a"] (by decide)).2 "b" (by decide)
      (by decide)⟩

/-! ## clean_data (main.py lines 103-122)

`clean_data` copies its argument (`df_cleaned = df.copy()`) and applies the
enabled operations to the copy, so the caller's frame is untouched.  The
pure result is embedded by `clean_data` below; the Python-level mutation
discipline is embedded by an explicit store of tables, on which
`df.copy()` allocates a fresh slot and all updates hit only that slot. -/

/-- The pure value computed by `clean_data`: drop duplicates first (line
110), then mean-fill numeric nulls on the deduplicated table (line 117). -/
def clean_data (df : Table) (auto_remove_duplicates auto_fill_nulls : Bool) : Table :=
  let d1 := if auto_remove_duplicates then removeDuplicates df else df
  if auto_fill_nulls then fillNumericNulls d1 else d1

/-- A store of tables: Python objects reachable from the caller, addressed
by position. -/
abbrev Store := List Table

/-- The empty table, used as the out-of-range default of a store read. -/
def emptyTable : Table := ⟨[], []⟩

/-- `clean_data` with the Python mutation discipline made explicit:
`df.copy()` allocates a fresh slot holding a copy of slot `r`, the two
in-place updates (`drop_duplicates` rebinding and the `fillna` column
assignment) write only to that fresh slot, and the function returns the
store together with the address of the result. -/
def clean_data_st (s : Store) (r : Nat)
    (auto_remove_duplicates auto_fill_nulls : Bool) : Store × Nat :=
  let rc := s.length
  let s1 := s ++ [s.getD r emptyTable]
  let s2 := if auto_remove_duplicates
    then s1.set rc (removeDuplicates (s1.getD rc emptyTable)) else s1
  let s3 := if auto_fill_nulls
    then s2.set rc (fillNumericNulls (s2.getD rc emptyTable)) else s2
  (s3, rc)

/-- C10: for every store, table address and combination of the cleaning
flags, `clean_data` leaves the caller's table unchanged: it works on a
fresh copy (`df.copy()`), returns that copy's address (distinct from the
input address), and the copy holds exactly the pure `clean_data` result of
the original table. -/
theorem clean_data_frame (s : Store) (r : Nat)
    (dup fill : Bool) (hr : r < s.length) :
    ((clean_data_st s r dup fill).1).getD r emptyTable = s.getD r emptyTable ∧
      (clean_data_st s r dup fill).2 ≠ r ∧
      ((clean_data_st s r dup fill).1).getD (clean_data_st s r dup fill).2 emptyTable
        = clean_data (s.getD r emptyTable) dup fill := by
  have hrc : s.length ≠ r := Nat.ne_of_gt hr
  have hget1 : (s ++ [s.getD r emptyTable]).getD s.length emptyTable
      = s.getD r emptyTable := by
    simp [List.getD_eq_getElem?_getD, List.getElem?_append_right]
  have hgetr : ∀ t : Table, (s ++ [t]).getD r emptyTable = s.getD r emptyTable := by
    intro t
    simp [List.getD_eq_getElem?_getD, List.getElem?_append_left hr]
  have hlen1 : (s ++ [s.getD r emptyTable]).length = s.length + 1 := by simp
  cases dup <;> cases fill <;>
    simp only [clean_data_st, clean_data, Bool.false_eq_true, if_false, if_true,
      ite_false, ite_true] <;>
    refine ⟨?_, hrc, ?_⟩ <;>
    simp [List.getD_eq_getElem?_getD, List.getElem?_set_ne, List.getElem?_set_eq_of_lt,
      List.getElem?_append_left hr, List.getElem?_append_right, hrc, hr, hlen1,
      Ne.symm hrc]

/-- A one-table store for the C10 witness. -/
def witStore : Store := [⟨["a"], [[Cell.num 1], [Cell.missing]]⟩]

/-- Witness for C10 on a concrete one-table store with both flags set. -/
theorem clean_data_frame_witness :
    ((clean_data_st witStore 0 true true).1).getD 0 emptyTable
        = witStore.getD 0 emptyTable ∧
      (clean_data_st witStore 0 true true).2 ≠ 0 ∧
      ((clean_data_st witStore 0 true true).1).getD
          (clean_data_st witStore 0 true true).2 emptyTable
        = clean_data (witStore.getD 0 emptyTable) true true :=
  clean_data_frame witStore 0 true true (by decide)

/-! ## Decimal rendering and parsing

`f"..._{idx}..."` renders the processing index in decimal, and pandas'
CSV reader converts an all-digit field (optionally `-`-signed) to an
integer.  Both directions are embedded here over `List Char`. -/

/-- Fuel-driven digit extraction: the decimal digits of `n`, most
significant first, in at most `fuel` steps. -/
def renderNatAux : Nat → Nat → List Char
  | 0, _ => []
  | fuel + 1, n =>
    if n = 0 then [] else renderNatAux fuel (n / 10) ++ [Nat.digitChar (n % 10)]

/-- The decimal rendering of a natural number (`str(n)`), most significant
digit first. -/
def renderNat (n : Nat) : List Char :=
  if n = 0 then ['0'] else renderNatAux n n

theorem renderNatAux_eq : ∀ fuel n : Nat, n ≤ fuel →
    renderNatAux fuel n = ((Nat.digits 10 n).map Nat.digitChar).reverse := by
  intro fuel
  induction fuel with
  | zero =>
    intro n hn
    interval_cases n
    simp [renderNatAux]
  | succ fuel ih =>
    intro n hn
    by_cases h0 : n = 0
    · subst h0
      simp [renderNatAux]
    · have hdig : Nat.digits 10 n = n % 10 :: Nat.digits 10 (n / 10) :=
        Nat.digits_def' (by norm_num) (Nat.pos_of_ne_zero h0)
      have hdiv : n / 10 ≤ fuel := by
        have := Nat.div_lt_self (Nat.pos_of_ne_zero h0) (by norm_num : 1 < 10)
        omega
      simp only [renderNatAux, h0, if_false, ih (n / 10) hdiv, hdig, List.map_cons,
        List.reverse_cons]

/-- `renderNat` produces exactly the base-10 digit string of `n`. -/
theorem renderNat_eq (n : Nat) :
    renderNat n
      = if n = 0 then ['0'] else ((Nat.digits 10 n).map Nat.digitChar).reverse := by
  unfold renderNat
  by_cases h : n = 0
  · simp [h]
  · simp only [h, if_false]
    exact renderNatAux_eq n n le_rfl

/-- The numeric value of a decimal digit character. -/
def charVal (c : Char) : Nat := c.toNat - '0'.toNat

/-- Parse a non-empty all-digit field as a natural number. -/
def parseNat? (l : List Char) : Option Nat :=
  if l ≠ [] ∧ l.all Char.isDigit then
    some (Nat.ofDigits 10 ((l.map charVal).reverse))
  else none

/-- The decimal rendering of an integer (`str(z)`). -/
def renderInt (z : Int) : List Char :=
  if z < 0 then '-' :: renderNat z.natAbs else renderNat z.natAbs

/-- Parse an optionally `-`-signed all-digit field as an integer: the
integer conversion pandas' CSV reader applies to numeric fields. -/
def parseInt? (l : List Char) : Option Int :=
  if l.head? = some '-' then (parseNat? l.tail).map (fun n => -(n : Int))
  else (parseNat? l).map (fun n => (n : Int))

theorem digitChar_isDigit {d : Nat} (hd : d < 10) :
    (Nat.digitChar d).isDigit = true := by
  interval_cases d <;> decide

theorem charVal_digitChar {d : Nat} (hd : d < 10) :
    charVal (Nat.digitChar d) = d := by
  interval_cases d <;> decide

theorem renderNat_ne_nil (n : Nat) : renderNat n ≠ [] := by
  rw [renderNat_eq]
  by_cases h : n = 0
  · simp [h]
  · simp only [h, if_false, ne_eq, List.reverse_eq_nil_iff, List.map_eq_nil_iff]
    exact Nat.digits_ne_nil_iff_ne_zero.mpr h

theorem renderNat_all_digits (n : Nat) :
    ∀ c ∈ renderNat n, c.isDigit = true := by
  intro c hc
  rw [renderNat_eq] at hc
  by_cases h : n = 0
  · simp [h] at hc
    rw [hc]
    decide
  · simp only [h, if_false, List.mem_reverse, List.mem_map] at hc
    obtain ⟨d, hd, rfl⟩ := hc
    exact digitChar_isDigit (Nat.digits_lt_base (by norm_num) hd)

theorem parseNat?_renderNat (n : Nat) : parseNat? (renderNat n) = some n := by
  unfold parseNat?
  rw [if_pos ⟨renderNat_ne_nil n, List.all_eq_true.mpr
    (fun c hc => renderNat_all_digits n c hc)⟩]
  congr 1
  by_cases h : n = 0
  · subst h
    decide
  · rw [renderNat_eq, if_neg h, List.map_reverse, List.reverse_reverse, List.map_map]
    have : ∀ d ∈ Nat.digits 10 n, (charVal ∘ Nat.digitChar) d = id d := by
      intro d hd
      exact charVal_digitChar (Nat.digits_lt_base (by norm_num) hd)
    rw [List.map_congr_left this, List.map_id]
    exact Nat.ofDigits_digits 10 n

theorem renderNat_head_ne_neg (n : Nat) : (renderNat n).head? ≠ some '-' := by
  cases h : renderNat n with
  | nil => exact absurd h (renderNat_ne_nil n)
  | cons c cs =>
    have hd : c.isDigit = true := renderNat_all_digits n c (h ▸ List.mem_cons_self c cs)
    simp only [List.head?_cons, ne_eq, Option.some.injEq]
    intro hcontra
    rw [hcontra] at hd
    exact absurd hd (by decide)

theorem parseInt?_renderInt (z : Int) : parseInt? (renderInt z) = some z := by
  unfold parseInt? renderInt
  by_cases hz : z < 0
  · rw [if_pos hz]
    simp only [List.head?_cons, if_pos rfl, List.tail_cons, parseNat?_renderNat]
    have h : -(z.natAbs : Int) = z := by omega
    exact congrArg some h
  · rw [if_neg hz, if_neg (renderNat_head_ne_neg z.natAbs), parseNat?_renderNat]
    have h : (z.natAbs : Int) = z := by omega
    exact congrArg some h

/-! ## CSV conversion (`convert_file`, main.py 124-135; `read_file`, 91-101)

`df.to_csv(buffer, index=False)` writes a header line and one line per row,
fields joined by commas, records terminated by newlines, without row-index
labels.  `pd.read_csv` splits lines (skipping blank lines), splits fields
on commas, and infers a dtype per column: a column whose fields are all
empty-or-numeric becomes numeric with empty fields as `NaN`; any other
column stays object, its empty fields still `NaN`.  The embedding models
the text format over `List Char` for integer-valued numerics and
delimiter-free strings; pandas' quoting and floating-point formatting are
outside this model and excluded from the verified domain by `csvSafe`. -/

/-- Characters with a delimiting role in the CSV format (separator, record
terminators, quote).  `to_csv` would quote a field containing one; quoting
is not modelled, so `csvSafe` excludes such fields. -/
def csvDelim (c : Char) : Bool := c = ',' || c = '\n' || c = '"' || c = '\r'

/-- Characters that may occur in a field pandas can read back as a number
(digits, signs, decimal point, exponent letters, padding blanks). -/
def numAlpha (c : Char) : Bool :=
  c.isDigit || c = '-' || c = '+' || c = '.' || c = 'e' || c = 'E' || c = ' '

/-- Field spellings pandas' reader converts to `NaN` (default `na_values`)
or to a float infinity instead of keeping them as strings. -/
def naLikeTokens : List String :=
  ["", "#N/A", "#N/A N/A", "#NA", "-1.#IND", "-1.#QNAN", "-NaN", "-nan",
   "1.#IND", "1.#QNAN", "<NA>", "N/A", "NA", "NULL", "NaN", "None", "n/a",
   "nan", "null", "inf", "-inf", "Inf", "-Inf", "INF", "-INF",
   "Infinity", "-Infinity"]

/-- A string cell on which the modelled reader inference agrees with
pandas: non-empty, free of delimiter characters, not an `NaN`/infinity
spelling, and either a plain signed integer or containing a character that
keeps its column non-numeric (all-numeric-looking non-integer fields -
floats, exponents, padded numbers - are excluded: pandas reads them as
floating point, which the exact rational model does not mirror). -/
def goodStr (s : String) : Bool :=
  !s.data.isEmpty && s.data.all (fun c => !csvDelim c) &&
    !(naLikeTokens.contains s) &&
    ((parseInt? s.data).isSome || s.data.any (fun c => !numAlpha c))

/-- The CSV spelling of a cell: missing is the empty field, a numeric cell
its decimal rendering, a string cell its characters.  `none` when the cell
is a non-integer numeric (pandas float formatting is outside the exact
rational model). -/
def renderCell : Cell → Option (List Char)
  | Cell.missing => some []
  | Cell.num q => if q.den = 1 then some (renderInt q.num) else none
  | Cell.str s => some s.data

/-- Total version of `renderCell`, used to state what the reader
recovers. -/
def renderCellD (c : Cell) : List Char := (renderCell c).getD []

/-- `df.to_csv(index=False)`: header line, then one line per row, fields
joined by `,`, records joined by a newline with a trailing newline; no
row-index column.  `none` if some cell is a non-integer numeric. -/
def toCsv (T : Table) : Option (List Char) :=
  (T.rows.mapM (fun r => List.mapM renderCell r)).map (fun grid =>
    List.intercalate ['\n']
      ((List.intercalate [','] (T.header.map String.data)) ::
        grid.map (List.intercalate [','])) ++ ['\n'])

/-- The non-blank lines of the stream (`read_csv` skips blank lines by
default, `skip_blank_lines=True`). -/
def csvLines (s : List Char) : List (List Char) :=
  (List.splitOn '\n' s).filter (fun l => !l.isEmpty)

/-- Does column `j` of the raw field grid get numeric dtype?  Yes exactly
when every field in it is empty or parses as an integer. -/
def colIsNumeric (grid : List (List (List Char))) (j : Nat) : Bool :=
  grid.all (fun fr => (fr.getD j []).isEmpty || (parseInt? (fr.getD j [])).isSome)

/-- Decode one raw field given its column's inferred dtype: empty fields
are `NaN`; in a numeric column fields parse as numbers; otherwise the field
stays a string. -/
def decodeField (numeric : Bool) (f : List Char) : Cell :=
  if f.isEmpty then Cell.missing
  else if numeric then
    match parseInt? f with
    | some z => Cell.num (z : ℚ)
    | none => Cell.str (String.mk f)
  else Cell.str (String.mk f)

/-- Decode the raw field grid into rows under per-column dtype inference. -/
def inferRows (w : Nat) (grid : List (List (List Char))) : List Row :=
  grid.map (fun fr =>
    (List.range w).map (fun j => decodeField (colIsNumeric grid j) (fr.getD j [])))

/-- `pd.read_csv`: first non-blank line is the header; remaining lines are
field rows decoded under column dtype inference.  `none` on an empty
stream (pandas `EmptyDataError`). -/
def readCsv (s : List Char) : Option Table :=
  match csvLines s with
  | [] => none
  | h :: body =>
    let header := (List.splitOn ',' h).map String.mk
    let grid := body.map (List.splitOn ',')
    some ⟨header, inferRows header.length grid⟩

/-- The raw field grid a table's rows are spelled as. -/
def gridOf (T : Table) : List (List (List Char)) :=
  T.rows.map (fun r => r.map renderCellD)

/-- The type-inference normalization of a table: what re-reading its own
CSV spelling recovers cell-wise.  Integer-looking string cells in an
all-numeric column become numeric, empty-rendering cells become missing;
every other cell keeps its value. -/
def normalizeTable (T : Table) : Table :=
  ⟨T.header, inferRows T.header.length (gridOf T)⟩

/-- A cell `to_csv` spells faithfully within the model: missing, an
integer-valued numeric, or a `goodStr` string. -/
def cellOk : Cell → Bool
  | Cell.missing => true
  | Cell.num q => q.den = 1
  | Cell.str s => goodStr s

/-- The verified CSV round-trip domain: at least one column; header names
non-empty, delimiter-free and pairwise distinct; aligned rows of `cellOk`
cells; and no row spelled as an entirely blank line (`read_csv` silently
skips blank lines). -/
def csvSafe (T : Table) : Bool :=
  !T.header.isEmpty &&
    T.header.all (fun n => !n.data.isEmpty && n.data.all (fun c => !csvDelim c)) &&
    decide T.header.Nodup &&
    T.aligned &&
    T.rows.all (fun r => r.all cellOk) &&
    T.rows.all (fun r => !(List.intercalate [','] (r.map renderCellD)).isEmpty)

theorem intercalate_single {α : Type} (sep a : List α) :
    List.intercalate sep [a] = a := by
  simp [List.intercalate]

theorem intercalate_cons_cons' {α : Type} (sep a b : List α) (l : List (List α)) :
    List.intercalate sep (a :: b :: l) = a ++ sep ++ List.intercalate sep (b :: l) := by
  simp [List.intercalate, List.intersperse_cons_cons, List.append_assoc]

theorem intercalate_append_single {α : Type} (sep : List α) :
    ∀ (L : List (List α)) (x : List α), L ≠ [] →
      List.intercalate sep (L ++ [x]) = List.intercalate sep L ++ sep ++ x := by
  intro L
  induction L with
  | nil => intro x h; contradiction
  | cons a as ih =>
    intro x _
    cases as with
    | nil => simp [intercalate_single, intercalate_cons_cons']
    | cons b bs =>
      have h2 := ih x (by simp)
      show List.intercalate sep (a :: ((b :: bs) ++ [x])) = _
      rw [show a :: ((b :: bs) ++ [x]) = a :: b :: (bs ++ [x]) from rfl,
        intercalate_cons_cons',
        show (b :: (bs ++ [x]) : List (List α)) = (b :: bs) ++ [x] from rfl, h2,
        intercalate_cons_cons']
      simp [List.append_assoc]

theorem not_mem_intercalate {α : Type} [DecidableEq α] (c : α) (sep : List α) :
    ∀ fs : List (List α), c ∉ sep → (∀ f ∈ fs, c ∉ f) →
      c ∉ List.intercalate sep fs := by
  intro fs hsep
  induction fs with
  | nil => intro _; simp [List.intercalate]
  | cons a as ih =>
    intro hfs
    cases as with
    | nil =>
      rw [intercalate_single]
      exact hfs a (List.mem_cons_self a [])
    | cons b bs =>
      rw [intercalate_cons_cons']
      intro hmem
      rcases List.mem_append.mp hmem with h | h
      · rcases List.mem_append.mp h with h | h
        · exact hfs a (by simp) h
        · exact hsep h
      · exact ih (fun f hf => hfs f (List.mem_cons_of_mem a hf)) h

theorem intercalate_cons_ne_nil {α : Type} (sep f : List α) (fs : List (List α))
    (hf : f ≠ []) : List.intercalate sep (f :: fs) ≠ [] := by
  cases fs with
  | nil => rw [intercalate_single]; exact hf
  | cons b bs =>
    rw [intercalate_cons_cons']
    simp [hf]

theorem mapM_eq_some_map {α β : Type} (f : α → Option β) (g : α → β) :
    ∀ l : List α, (∀ x ∈ l, f x = some (g x)) → l.mapM f = some (l.map g) := by
  intro l
  induction l with
  | nil => intro _; rfl
  | cons x xs ih =>
    intro h
    rw [List.mapM_cons, h x (List.mem_cons_self x xs),
      ih (fun y hy => h y (List.mem_cons_of_mem x hy))]
    rfl

theorem renderCell_eq_some_of_ok {c : Cell} (h : cellOk c = true) :
    renderCell c = some (renderCellD c) := by
  cases c with
  | missing => rfl
  | num q =>
    have hd : q.den = 1 := by simpa [cellOk] using h
    simp [renderCell, renderCellD, hd]
  | str s => rfl

theorem isDigit_not_delim {c : Char} (h : c.isDigit = true) : csvDelim c = false := by
  rcases eq_or_ne c ',' with rfl | h1
  · exact absurd h (by decide)
  rcases eq_or_ne c '\n' with rfl | h2
  · exact absurd h (by decide)
  rcases eq_or_ne c '"' with rfl | h3
  · exact absurd h (by decide)
  rcases eq_or_ne c '\r' with rfl | h4
  · exact absurd h (by decide)
  simp [csvDelim, h1, h2, h3, h4]

theorem renderInt_not_delim (z : Int) :
    ∀ ch ∈ renderInt z, csvDelim ch = false := by
  intro ch hch
  unfold renderInt at hch
  by_cases hz : z < 0
  · rw [if_pos hz] at hch
    rcases List.mem_cons.mp hch with rfl | h2
    · decide
    · exact isDigit_not_delim (renderNat_all_digits _ _ h2)
  · rw [if_neg hz] at hch
    exact isDigit_not_delim (renderNat_all_digits _ _ hch)

theorem renderCellD_not_delim {c : Cell} (h : cellOk c = true) :
    ∀ ch ∈ renderCellD c, csvDelim ch = false := by
  intro ch hch
  cases c with
  | missing => simp [renderCellD, renderCell] at hch
  | num q =>
    have hd : q.den = 1 := by simpa [cellOk] using h
    simp only [renderCellD, renderCell, hd, if_pos, Option.getD_some] at hch
    exact renderInt_not_delim _ _ hch
  | str s =>
    have hg : goodStr s = true := by simpa [cellOk] using h
    simp only [goodStr, Bool.and_eq_true] at hg
    have hall := hg.1.1.2
    have := List.all_eq_true.mp hall ch (by simpa [renderCellD, renderCell] using hch)
    simpa using this

theorem not_mem_of_not_delim {l : List Char} (h : ∀ ch ∈ l, csvDelim ch = false) :
    ',' ∉ l ∧ '\n' ∉ l := by
  constructor
  · intro hm
    exact absurd (h _ hm) (by decide)
  · intro hm
    exact absurd (h _ hm) (by decide)

/-- `readCsv` on a stream whose non-blank lines are known. -/
theorem readCsv_eq (s : List Char) (h : List Char) (body : List (List Char))
    (hs : csvLines s = h :: body) :
    readCsv s = some ⟨(List.splitOn ',' h).map String.mk,
      inferRows ((List.splitOn ',' h).map String.mk).length
        (body.map (List.splitOn ','))⟩ := by
  unfold readCsv
  rw [hs]

/-- C4 (amended): on the verified CSV domain, `to_csv(index=False)`
followed by the CSV loader recovers exactly the type-inference
normalization of the table; the normalization keeps the header and the
number of rows.  (Outside the domain a row can be lost outright: a row
that serializes as a blank line is skipped by the reader, see the
counterexample.) -/
theorem csv_roundtrip (T : Table) (hsafe : csvSafe T = true) :
    (toCsv T).bind readCsv = some (normalizeTable T) ∧
      (normalizeTable T).header = T.header ∧
      (normalizeTable T).rows.length = T.rows.length := by
  simp only [csvSafe, Bool.and_eq_true] at hsafe
  obtain ⟨⟨⟨⟨⟨h1, h2⟩, h3⟩, h4⟩, h5⟩, h6⟩ := hsafe
  have hheader_ne : T.header ≠ [] := by
    simpa [List.isEmpty_iff] using h1
  have hnames : ∀ n ∈ T.header, n.data ≠ [] ∧ ∀ ch ∈ n.data, csvDelim ch = false := by
    intro n hn
    have hh := List.all_eq_true.mp h2 n hn
    simp only [Bool.and_eq_true] at hh
    refine ⟨by simpa [List.isEmpty_iff] using hh.1, ?_⟩
    intro ch hch
    have := List.all_eq_true.mp hh.2 ch hch
    simpa using this
  have hcells : ∀ r ∈ T.rows, ∀ c ∈ r, cellOk c = true := by
    intro r hr c hc
    exact List.all_eq_true.mp (List.all_eq_true.mp h5 r hr) c hc
  have hlines_ne : ∀ r ∈ T.rows, List.intercalate [','] (r.map renderCellD) ≠ [] := by
    intro r hr
    have := List.all_eq_true.mp h6 r hr
    simpa [List.isEmpty_iff] using this
  have hmapM : T.rows.mapM (fun r => List.mapM renderCell r) = some (gridOf T) := by
    unfold gridOf
    apply mapM_eq_some_map
    intro r hr
    apply mapM_eq_some_map
    intro c hc
    exact renderCell_eq_some_of_ok (hcells r hr c hc)
  have htoCsv : toCsv T
      = some (List.intercalate ['\n']
          ((List.intercalate [','] (T.header.map String.data)) ::
            (gridOf T).map (List.intercalate [','])) ++ ['\n']) := by
    unfold toCsv
    rw [hmapM]
    rfl
  have hline_free : '\n' ∉ List.intercalate [','] (T.header.map String.data) := by
    apply not_mem_intercalate
    · decide
    · intro f hf
      obtain ⟨n, hn, rfl⟩ := List.mem_map.mp hf
      exact (not_mem_of_not_delim (hnames n hn).2).2
  have hrowline_free : ∀ l ∈ (gridOf T).map (List.intercalate [',']), '\n' ∉ l := by
    intro l hl
    obtain ⟨fr, hfr, rfl⟩ := List.mem_map.mp hl
    obtain ⟨r, hr, rfl⟩ := List.mem_map.mp hfr
    apply not_mem_intercalate
    · decide
    · intro f hf
      obtain ⟨c, hc, rfl⟩ := List.mem_map.mp hf
      exact (not_mem_of_not_delim (renderCellD_not_delim (hcells r hr c hc))).2
  have hline_ne : List.intercalate [','] (T.header.map String.data) ≠ [] := by
    obtain ⟨n, rest, hcons⟩ := List.exists_cons_of_ne_nil hheader_ne
    rw [hcons, List.map_cons]
    exact intercalate_cons_ne_nil _ _ _
      (hnames n (hcons ▸ List.mem_cons_self n rest)).1
  have hlines : csvLines (List.intercalate ['\n']
      ((List.intercalate [','] (T.header.map String.data)) ::
        (gridOf T).map (List.intercalate [','])) ++ ['\n'])
      = (List.intercalate [','] (T.header.map String.data)) ::
          (gridOf T).map (List.intercalate [',']) := by
    rw [show List.intercalate ['\n']
        ((List.intercalate [','] (T.header.map String.data)) ::
          (gridOf T).map (List.intercalate [','])) ++ ['\n']
        = List.intercalate ['\n']
          (((List.intercalate [','] (T.header.map String.data)) ::
            (gridOf T).map (List.intercalate [','])) ++ [[]]) by
      rw [intercalate_append_single _ _ _ (by simp)]
      simp]
    unfold csvLines
    rw [List.splitOn_intercalate _ '\n' ?hx ?hne]
    case hx =>
      intro l hl
      rcases List.mem_append.mp hl with h | h
      · rcases List.mem_cons.mp h with rfl | h
        · exact hline_free
        · exact hrowline_free l h
      · simp only [List.mem_singleton] at h
        subst h
        simp
    case hne => simp
    rw [List.filter_append]
    have hfilter : ((List.intercalate [','] (T.header.map String.data)) ::
        (gridOf T).map (List.intercalate [','])).filter (fun l => !l.isEmpty)
        = (List.intercalate [','] (T.header.map String.data)) ::
            (gridOf T).map (List.intercalate [',']) := by
      apply List.filter_eq_self.mpr
      intro l hl
      rcases List.mem_cons.mp hl with rfl | h
      · simpa [List.isEmpty_iff] using hline_ne
      · obtain ⟨fr, hfr, rfl⟩ := List.mem_map.mp h
        obtain ⟨r, hr, rfl⟩ := List.mem_map.mp hfr
        simpa [List.isEmpty_iff] using hlines_ne r hr
    rw [hfilter]
    simp
  have hsplit_header : List.splitOn ',' (List.intercalate [',']
      (T.header.map String.data)) = T.header.map String.data := by
    apply List.splitOn_intercalate
    · intro f hf
      obtain ⟨n, hn, rfl⟩ := List.mem_map.mp hf
      exact (not_mem_of_not_delim (hnames n hn).2).1
    · simpa using hheader_ne
  have hsplit_rows : ((gridOf T).map (List.intercalate [','])).map
      (List.splitOn ',') = gridOf T := by
    rw [List.map_map]
    have hptwise : ∀ fr ∈ gridOf T, (List.splitOn ',' ∘ List.intercalate [',']) fr
        = id fr := by
      intro fr hfr
      obtain ⟨r, hr, rfl⟩ := List.mem_map.mp hfr
      show List.splitOn ',' (List.intercalate [','] (r.map renderCellD))
          = r.map renderCellD
      apply List.splitOn_intercalate
      · intro f hf
        obtain ⟨c, hc, rfl⟩ := List.mem_map.mp hf
        exact (not_mem_of_not_delim (renderCellD_not_delim (hcells r hr c hc))).1
      · intro hcontra
        exact hlines_ne r hr (by rw [hcontra]; rfl)
    rw [List.map_congr_left hptwise, List.map_id]
  have hmk : (T.header.map String.data).map String.mk = T.header := by
    rw [List.map_map]
    have hid : ∀ n ∈ T.header, (String.mk ∘ String.data) n = id n := fun n _ => rfl
    rw [List.map_congr_left hid, List.map_id]
  refine ⟨?_, rfl, by simp [normalizeTable, inferRows, gridOf]⟩
  rw [htoCsv]
  show readCsv _ = _
  rw [readCsv_eq _ _ _ hlines, hsplit_header, hsplit_rows, hmk]
  rfl

/-- The table refuting claim C4 as stated: one column, one row whose only
cell is missing, so the row serializes as a blank line. -/
def cexCsvTable : Table := ⟨["a"], [[Cell.missing]]⟩

/-- C4 counterexample: the single row of `cexCsvTable` serializes as a
blank line (`"a\n\n"`), which the reader skips, so the round trip returns
a zero-row table.  The lost row is not a type-inference difference: the
type-inference normalization of this table is the table itself, yet the
round trip does not return it. -/
theorem csv_roundtrip_cex :
    (toCsv cexCsvTable).bind readCsv = some (⟨["a"], []⟩ : Table) ∧
      normalizeTable cexCsvTable = cexCsvTable ∧
      (toCsv cexCsvTable).bind readCsv ≠ some cexCsvTable := by
  decide

/-- A concrete two-column table (one numeric column with a missing cell,
one mixed column) for the C4 witness. -/
def witCsvTable : Table :=
  ⟨["a", "b"], [[Cell.num 1, Cell.str "x"], [Cell.missing, Cell.num 2]]⟩

/-- Witness for C4 (amended) on `witCsvTable`. -/
theorem csv_roundtrip_witness :
    (toCsv witCsvTable).bind readCsv = some (normalizeTable witCsvTable) ∧
      (normalizeTable witCsvTable).header = witCsvTable.header ∧
      (normalizeTable witCsvTable).rows.length = witCsvTable.rows.length :=
  csv_roundtrip witCsvTable (by decide)

/-! ## Per-file processing loop and outputs (main.py lines 147-282)

The loop enumerates the uploaded files; a file whose read fails is skipped
(`if df is None: continue`) and the loop moves on; a successful file is
cleaned/column-selected, converted by `convert_file`, and recorded in the
`converted_files` dictionary under
`new_filename = f"{os.path.splitext(file.name)[0]}_{idx}.{ext}"`.
The bulk download zips one entry per dictionary item. -/

/-- An uploaded file: a name and its raw content. -/
structure UploadedFile where
  name : String
  content : List Char
deriving DecidableEq

/-- The per-file conversion target (radio `"CSV"`/`"Excel"`, line 240). -/
inductive ConvType where
  | csv
  | excel
deriving DecidableEq

/-- Output bytes of `convert_file`: CSV text (`none` when outside the
modelled serializer domain), or an XLSX workbook, whose binary encoding is
not modelled and is represented by the table it serializes. -/
inductive FileBytes where
  | csvBytes (s : Option (List Char))
  | xlsxBytes (t : Table)
deriving DecidableEq

/-- The MIME type reported per conversion target (lines 130, 133). -/
def mimeOf : ConvType → String
  | ConvType.csv => "text/csv"
  | ConvType.excel => "application/vnd.openxmlformats-officedocument.spreadsheetml.sheet"

/-- `convert_file` (lines 124-135): serialize the table in the chosen
format and pair the bytes with the MIME type. -/
def convert_file (df : Table) (conversion_type : ConvType) : FileBytes × String :=
  match conversion_type with
  | ConvType.csv => (FileBytes.csvBytes (toCsv df), mimeOf ConvType.csv)
  | ConvType.excel => (FileBytes.xlsxBytes df, mimeOf ConvType.excel)

/-- `os.path.splitext(name)[0]`: the name up to its last dot, where the
leading dots of the name do not count as extension separators. -/
def stemChars (l : List Char) : List Char :=
  let ds := l.takeWhile (· = '.')
  let rest := l.drop ds.length
  if '.' ∈ rest then
    ds ++ (rest.reverse.drop ((rest.reverse.takeWhile (· ≠ '.')).length + 1)).reverse
  else l

/-- The extension the conversion writes (line 248). -/
def extChars : ConvType → List Char
  | ConvType.csv => ['c', 's', 'v']
  | ConvType.excel => ['x', 'l', 's', 'x']

/-- `new_filename = f"{os.path.splitext(file.name)[0]}_{idx}.{'csv' if conversion_type == 'CSV' else 'xlsx'}"`
(line 248). -/
def new_filename (name : String) (idx : Nat) (conversion_type : ConvType) : String :=
  String.mk (stemChars name.data ++ '_' :: (renderNat idx ++ '.' :: extChars conversion_type))

/-- Split a list at the last occurrence of `sep`: `some (before, after)`
with `l = before ++ sep :: after` and `sep ∉ after`; `none` when `sep`
does not occur. -/
def lastSplit (sep : Char) (l : List Char) : Option (List Char × List Char) :=
  if (l.reverse.takeWhile (· ≠ sep)).length < l.reverse.length then
    some ((l.reverse.drop ((l.reverse.takeWhile (· ≠ sep)).length + 1)).reverse,
      (l.reverse.takeWhile (· ≠ sep)).reverse)
  else none

/-- Recover the processing index embedded in a generated output filename:
the decimal digits between the last underscore and the last dot. -/
def fileIdx? (k : String) : Option Nat :=
  (lastSplit '.' k.data).bind (fun pe =>
    (lastSplit '_' pe.1).bind (fun ud => parseNat? ud.2))

theorem takeWhile_append_stop (p : Char → Bool) (xs : List Char) (c : Char)
    (ys : List Char) (hxs : ∀ x ∈ xs, p x = true) (hc : p c = false) :
    (xs ++ c :: ys).takeWhile p = xs := by
  induction xs with
  | nil => simp [List.takeWhile_cons, hc]
  | cons a as ih =>
    have ha := hxs a (by simp)
    simp [List.takeWhile_cons, ha, ih (fun x hx => hxs x (by simp [hx]))]

theorem lastSplit_eq (sep : Char) (a b : List Char) (hb : sep ∉ b) :
    lastSplit sep (a ++ sep :: b) = some (a, b) := by
  unfold lastSplit
  have hrev : (a ++ sep :: b).reverse = (b.reverse ++ [sep]) ++ a.reverse := by
    simp [List.reverse_append, List.append_assoc]
  rw [hrev]
  have htake : (((b.reverse ++ [sep]) ++ a.reverse)).takeWhile (· ≠ sep)
      = b.reverse := by
    rw [show (b.reverse ++ [sep]) ++ a.reverse = b.reverse ++ sep :: a.reverse by
      simp [List.append_assoc]]
    apply takeWhile_append_stop
    · intro x hx
      have hxb : x ∈ b := List.mem_reverse.mp hx
      simp only [decide_eq_true_eq]
      intro hcontra
      exact hb (hcontra ▸ hxb)
    · simp
  rw [htake]
  have hlen : b.reverse.length < ((b.reverse ++ [sep]) ++ a.reverse).length := by
    simp
  rw [if_pos hlen]
  have hdrop : ((b.reverse ++ [sep]) ++ a.reverse).drop (b.reverse.length + 1)
      = a.reverse := List.drop_left' (by simp)
  rw [hdrop]
  simp

theorem fileIdx?_new_filename (name : String) (idx : Nat) (c : ConvType) :
    fileIdx? (new_filename name idx c) = some idx := by
  unfold fileIdx? new_filename
  have hdata : (String.mk (stemChars name.data
      ++ '_' :: (renderNat idx ++ '.' :: extChars c))).data
      = (stemChars name.data ++ '_' :: renderNat idx) ++ '.' :: extChars c := by
    show stemChars name.data ++ '_' :: (renderNat idx ++ '.' :: extChars c) = _
    simp [List.append_assoc]
  rw [hdata, lastSplit_eq '.' _ _ (by cases c <;> decide), Option.some_bind]
  have hus : '_' ∉ renderNat idx := by
    intro hmem
    exact absurd (renderNat_all_digits idx _ hmem) (by decide)
  rw [lastSplit_eq '_' (stemChars name.data) (renderNat idx) hus, Option.some_bind]
  exact parseNat?_renderNat idx

/-- The per-file processing loop (lines 153-261): each enumerated file is
read; a failed read is skipped (`if df is None: continue`) and the index
still advances; a successful read is passed through the per-file cleaning
and column-selection stages (`pipe`), converted, and recorded under its
generated output filename.  `reader` stands for `read_file`, `i` for the
running `idx` of `enumerate(uploaded_files)`. -/
def processFiles (reader : UploadedFile → Option Table) (pipe : Table → Table)
    (conversion_type : ConvType) :
    Nat → List UploadedFile → List (String × FileBytes)
  | _, [] => []
  | i, f :: fs =>
    match reader f with
    | none => processFiles reader pipe conversion_type (i + 1) fs
    | some df =>
      (new_filename f.name i conversion_type,
        (convert_file (pipe df) conversion_type).1) ::
        processFiles reader pipe conversion_type (i + 1) fs

/-- C6: a file on which the reader fails yields no output and is skipped,
and the remaining files are processed exactly as they would be at their
original positions: the batch output splits around the failed file, which
contributes nothing.  No per-file failure is fatal to the batch. -/
theorem loader_failure_skipped (reader : UploadedFile → Option Table)
    (pipe : Table → Table) (ct : ConvType) (i : Nat)
    (pre post : List UploadedFile) (bad : UploadedFile)
    (hbad : reader bad = none) :
    processFiles reader pipe ct i (pre ++ bad :: post)
      = processFiles reader pipe ct i pre
          ++ processFiles reader pipe ct (i + pre.length + 1) post := by
  induction pre generalizing i with
  | nil =>
    simp only [List.nil_append, processFiles, hbad, List.length_nil]
  | cons f fs ih =>
    simp only [List.cons_append, List.length_cons]
    cases hr : reader f with
    | none =>
      simp only [processFiles, hr]
      rw [ih (i + 1)]
      have harith : i + 1 + fs.length + 1 = i + (fs.length + 1) + 1 := by omega
      rw [harith]
    | some df =>
      simp only [processFiles, hr]
      rw [ih (i + 1)]
      have harith : i + 1 + fs.length + 1 = i + (fs.length + 1) + 1 := by omega
      rw [harith, List.cons_append]

/-- The reader of the C6 witness: the CSV loader on the file's bytes. -/
def witReader (f : UploadedFile) : Option Table := readCsv f.content

/-- A parseable one-column file for the C6 witness. -/
def witGoodFile : UploadedFile := ⟨"g.csv", ['a', '\n', '1', '\n']⟩

/-- An unparseable (empty) file for the C6 witness: the parse fails. -/
def witBadFile : UploadedFile := ⟨"b.csv", []⟩

/-- A second parseable file for the C6 witness. -/
def witGoodFile2 : UploadedFile := ⟨"h.csv", ['a', '\n', '2', '\n']⟩

/-- Witness for C6: with the failing file between two good ones, the batch
output is the two good files' outputs at their original indices. -/
theorem loader_failure_skipped_witness :
    processFiles witReader id ConvType.csv 0 ([witGoodFile] ++ witBadFile :: [witGoodFile2])
      = processFiles witReader id ConvType.csv 0 [witGoodFile]
          ++ processFiles witReader id ConvType.csv (0 + [witGoodFile].length + 1)
              [witGoodFile2] :=
  loader_failure_skipped witReader id ConvType.csv 0 [witGoodFile] [witGoodFile2]
    witBadFile (by decide)

/-- The keys of the accumulated `converted_files` dictionary. -/
def dictKeys (d : List (String × FileBytes)) : List String := d.map Prod.fst

/-- Python dict assignment `d[k] = v`: overwrite in place when the key
exists (keeping its position), else append (dicts preserve insertion
order). -/
def dictInsert (d : List (String × FileBytes)) (k : String) (v : FileBytes) :
    List (String × FileBytes) :=
  if k ∈ dictKeys d then d.map (fun p => if p.1 = k then (k, v) else p)
  else d ++ [(k, v)]

/-- The `converted_files` dictionary accumulated over the batch
(`converted_files[new_filename] = data`, line 261). -/
def converted_files (reader : UploadedFile → Option Table) (pipe : Table → Table)
    (ct : ConvType) (i : Nat) (files : List UploadedFile) :
    List (String × FileBytes) :=
  (processFiles reader pipe ct i files).foldl (fun d kv => dictInsert d kv.1 kv.2) []

/-- The bulk-download archive (lines 267-271): `zf.writestr(fname, data)`
once per dictionary item, entry names exactly the dictionary keys. -/
structure ZipArchive where
  entries : List (String × FileBytes)
deriving DecidableEq

/-- Pack the accumulated conversion results into the archive. -/
def bulk_download (d : List (String × FileBytes)) : ZipArchive := ⟨d⟩

/-- Every key produced from position `i` onward embeds an index `≥ i`. -/
theorem processFiles_key_idx (reader : UploadedFile → Option Table)
    (pipe : Table → Table) (ct : ConvType) :
    ∀ (files : List UploadedFile) (i : Nat) (k : String),
      k ∈ dictKeys (processFiles reader pipe ct i files) →
      ∃ j, i ≤ j ∧ fileIdx? k = some j := by
  intro files
  induction files with
  | nil =>
    intro i k hk
    simp [processFiles, dictKeys] at hk
  | cons f fs ih =>
    intro i k hk
    cases hr : reader f with
    | none =>
      simp only [processFiles, hr] at hk
      obtain ⟨j, hj, hfi⟩ := ih (i + 1) k hk
      exact ⟨j, by omega, hfi⟩
    | some df =>
      simp only [processFiles, hr, dictKeys, List.map_cons] at hk
      rcases List.mem_cons.mp hk with rfl | hk2
      · exact ⟨i, le_rfl, fileIdx?_new_filename f.name i ct⟩
      · obtain ⟨j, hj, hfi⟩ := ih (i + 1) k hk2
        exact ⟨j, by omega, hfi⟩

/-- The generated output filenames of one batch are pairwise distinct. -/
theorem processFiles_keys_nodup (reader : UploadedFile → Option Table)
    (pipe : Table → Table) (ct : ConvType) :
    ∀ (files : List UploadedFile) (i : Nat),
      (dictKeys (processFiles reader pipe ct i files)).Nodup := by
  intro files
  induction files with
  | nil =>
    intro i
    simp [processFiles, dictKeys]
  | cons f fs ih =>
    intro i
    cases hr : reader f with
    | none =>
      simp only [processFiles, hr]
      exact ih (i + 1)
    | some df =>
      simp only [processFiles, hr, dictKeys, List.map_cons]
      refine List.nodup_cons.mpr ⟨?_, ih (i + 1)⟩
      intro hmem
      obtain ⟨j, hj, hfi⟩ := processFiles_key_idx reader pipe ct fs (i + 1) _ hmem
      rw [fileIdx?_new_filename] at hfi
      have := Option.some.inj hfi
      omega

/-- Folding Python dict insertion over entries with pairwise-distinct keys
never overwrites: the dictionary is exactly the entry list. -/
theorem foldl_dictInsert_eq_append :
    ∀ (l acc : List (String × FileBytes)),
      (dictKeys l).Nodup → (∀ k ∈ dictKeys l, k ∉ dictKeys acc) →
      l.foldl (fun d kv => dictInsert d kv.1 kv.2) acc = acc ++ l := by
  intro l
  induction l with
  | nil =>
    intro acc _ _
    simp
  | cons kv rest ih =>
    intro acc hnd hdisj
    simp only [dictKeys, List.map_cons] at hnd hdisj
    have hndc := List.nodup_cons.mp hnd
    have hk : kv.1 ∉ dictKeys acc := hdisj kv.1 (by simp)
    simp only [List.foldl_cons]
    rw [show dictInsert acc kv.1 kv.2 = acc ++ [(kv.1, kv.2)] by
      unfold dictInsert
      rw [if_neg hk]]
    rw [ih (acc ++ [(kv.1, kv.2)]) hndc.2 ?hdisj2]
    case hdisj2 =>
      intro k hkr
      simp only [dictKeys, List.map_append, List.map_cons, List.map_nil] at *
      intro hmem
      rcases List.mem_append.mp hmem with h | h
      · exact hdisj k (by simp [hkr]) h
      · simp only [List.mem_singleton] at h
        subst h
        exact hndc.1 hkr
    simp

/-- The number of outputs equals the number of successfully read files. -/
theorem processFiles_length (reader : UploadedFile → Option Table)
    (pipe : Table → Table) (ct : ConvType) :
    ∀ (files : List UploadedFile) (i : Nat),
      (processFiles reader pipe ct i files).length
        = files.countP (fun f => (reader f).isSome) := by
  intro files
  induction files with
  | nil =>
    intro i
    simp [processFiles]
  | cons f fs ih =>
    intro i
    cases hr : reader f with
    | none => simp [processFiles, hr, List.countP_cons, ih (i + 1)]
    | some df => simp [processFiles, hr, List.countP_cons, ih (i + 1)]

/-- C7: the bulk archive holds exactly one entry per accumulated
conversion result, entry names exactly as generated (the embedded index
makes keys pairwise distinct, so dict insertion never overwrites), and the
entry count equals the number of files the reader loaded successfully
(files failing the loader are excluded). -/
theorem bulk_archive_spec (reader : UploadedFile → Option Table)
    (pipe : Table → Table) (ct : ConvType) (i : Nat)
    (files : List UploadedFile) :
    (bulk_download (converted_files reader pipe ct i files)).entries
        = processFiles reader pipe ct i files ∧
      (bulk_download (converted_files reader pipe ct i files)).entries.length
        = files.countP (fun f => (reader f).isSome) := by
  have h1 : converted_files reader pipe ct i files
      = processFiles reader pipe ct i files := by
    unfold converted_files
    rw [foldl_dictInsert_eq_append _ []
      (processFiles_keys_nodup reader pipe ct files i) (by simp [dictKeys])]
    simp
  refine ⟨h1, ?_⟩
  show (converted_files reader pipe ct i files).length = _
  rw [h1, processFiles_length]

/-- C8: the output filename of the file at processing index `i` is exactly
`{stem}_{i}.{csv|xlsx}`, the conversion carries the matching MIME type
(`text/csv` for CSV, the spreadsheet MIME type for Excel), and output
filenames with distinct processing indices are always distinct, whatever
the original names and targets. -/
theorem new_filename_spec (name1 name2 : String) (i j : Nat)
    (c1 c2 : ConvType) (T : Table) (hij : i ≠ j) :
    (new_filename name1 i c1).data
        = stemChars name1.data ++ '_' :: (renderNat i ++ '.' :: extChars c1) ∧
      (convert_file T c1).2 = mimeOf c1 ∧
      mimeOf ConvType.csv = "text/csv" ∧
      mimeOf ConvType.excel
        = "application/vnd.openxmlformats-officedocument.spreadsheetml.sheet" ∧
      new_filename name1 i c1 ≠ new_filename name2 j c2 := by
  refine ⟨rfl, by cases c1 <;> rfl, rfl, rfl, ?_⟩
  intro heq
  have hcongr := congrArg fileIdx? heq
  rw [fileIdx?_new_filename, fileIdx?_new_filename] at hcongr
  exact hij (Option.some.inj hcongr)

/-- Witness for C8: the same uploaded name converted at indices 0 and 1
yields distinct output filenames. -/
theorem new_filename_spec_witness :
    (new_filename "data.csv" 0 ConvType.csv).data
        = stemChars "data.csv".data
            ++ '_' :: (renderNat 0 ++ '.' :: extChars ConvType.csv) ∧
      (convert_file emptyTable ConvType.csv).2 = mimeOf ConvType.csv ∧
      mimeOf ConvType.csv = "text/csv" ∧
      mimeOf ConvType.excel
        = "application/vnd.openxmlformats-officedocument.spreadsheetml.sheet" ∧
      new_filename "data.csv" 0 ConvType.csv ≠ new_filename "data.csv" 1 ConvType.csv :=
  new_filename_spec "data.csv" "data.csv" 0 1 ConvType.csv ConvType.csv emptyTable
    (by decide)
